import Mathlib

/-!
Single-segment iterator (`iterator_single.go`)

A shallow embedding of `iteratorSingle` and its four methods `Close`, `Next`,
`Current` and `CurrentEx`, followed by theorems about them.

Conventions of the embedding:
* a Go `[]byte` is `Option (List UInt8)`, `none` being the nil slice;
* a Go `error` value is `Option error`, `none` being nil;
* a Go `int` is an `Int` kept in the 64-bit two's-complement range, the
  increment `pos++` wrapping through `wrapInt`;
* a `uint64` operation tag is a `Nat`;
* a method with a pointer receiver that writes fields returns the new cursor;
* the effect of releasing the owned resource is recorded in a `World`.
-/

namespace Moss

/-- A Go byte slice; `none` is the nil slice. -/
abbrev Bytes := Option (List UInt8)

/-- Modelled from the spec: the error values `ErrIteratorDone`,
`ErrMergeOperatorNil` and `ErrMergeOperatorFullMergeFailed` are declared
outside `iterator_single.go`; the spec lists them as three distinct
conditions (exhausted, reducer-missing, reduction-failed).  `other` stands for
any further error value, such as one returned by a resource's `Close`. -/
inductive error where
  | ErrIteratorDone
  | ErrMergeOperatorNil
  | ErrMergeOperatorFullMergeFailed
  | other (msg : String)
  deriving DecidableEq, Repr

/-- Modelled from the spec: the operation-tag constants are declared outside
`iterator_single.go`; the spec names three distinct tags `Set`, `Delete`,
`Merge`.  The tag lives in the top byte of a `uint64`. -/
def OperationSet : Nat := 0x0100000000000000

/-- Modelled from the spec: the `Delete` tag (see `OperationSet`). -/
def OperationDel : Nat := 0x0200000000000000

/-- Modelled from the spec: the `Merge` tag (see `OperationSet`). -/
def OperationMerge : Nat := 0x0300000000000000

/-- Modelled from the spec: the `MergeOperator` interface is declared outside
`iterator_single.go`; the spec gives its full-reduction operation: given a
key, an optional base value and an ordered list of partial values it returns
`(reducedValue, success-flag)`. -/
structure MergeOperator where
  FullMerge : Bytes → Bytes → List Bytes → Bytes × Bool

/-- Modelled from the spec: `CollectionOptions` is declared outside
`iterator_single.go`; the only field the iterator reads is the (possibly nil)
`MergeOperator`. -/
structure CollectionOptions where
  MergeOperator : Option MergeOperator

/-- Modelled from the spec: `EntryEx` is declared outside
`iterator_single.go`; the iterator sets its `Operation` field.  The zero value
`EntryEx{}` has `Operation = 0`. -/
structure EntryEx where
  Operation : Nat
  deriving DecidableEq, Repr

/-- Modelled from the spec: the `segment` type and its accessor
`GetOperationKeyVal` are declared outside `iterator_single.go`; the spec
describes a read-only provider of `(operation, key, value)` triples by logical
position together with an entry count.  The accessor is kept abstract: it is
any function of the position. -/
structure segment where
  Len : Nat
  GetOperationKeyVal : Int → Nat × Bytes × Bytes

/-- The observable environment of `Close`: the identities of the resources
whose `Close` method has been invoked so far, most recent first. -/
abbrev World := List Nat

/-- An `io.Closer`: a resource with an identity and a `Close` method whose
returned error may depend on what has been released before. -/
structure Closer where
  id : Nat
  Close : World → Option error

/-- Invoking the `Close` method of a resource: the call is logged and its
error returned. -/
def Closer.invoke (c : Closer) (w : World) : Option error × World :=
  (c.Close w, c.id :: w)

/-- Largest value of a 64-bit Go `int`. -/
def maxInt : Int := 2 ^ 63 - 1

/-- Smallest value of a 64-bit Go `int`. -/
def minInt : Int := -(2 ^ 63)

/-- Two's-complement wrap-around of an integer into the 64-bit `int` range. -/
def wrapInt (x : Int) : Int := (x + 2 ^ 63) % 2 ^ 64 - 2 ^ 63

/-- The `iteratorSingle` struct. -/
structure iteratorSingle where
  s : segment
  posEnd : Int
  pos : Int
  op : Nat
  k : Bytes
  v : Bytes
  closer : Option Closer
  options : Option CollectionOptions

/-- `Close`: releases the owned resource, if any, discarding what its `Close`
returns, clears the reference and returns nil. -/
def iteratorSingle.Close (iter : iteratorSingle) (w : World) :
    iteratorSingle × Option error × World :=
  match iter.closer with
  | some c =>
    let r := c.invoke w
    ({ iter with closer := none }, none, r.2)
  | none => (iter, none, w)

/-- `Next`: increments `pos`; reports `ErrIteratorDone` when the new position
reaches `posEnd`, otherwise reloads the cached triple from the segment. -/
def iteratorSingle.Next (iter : iteratorSingle) : iteratorSingle × Option error :=
  let iter1 := { iter with pos := wrapInt (iter.pos + 1) }
  if iter1.pos ≥ iter1.posEnd then
    (iter1, some error.ErrIteratorDone)
  else
    let r := iter1.s.GetOperationKeyVal iter1.pos
    ({ iter1 with op := r.1, k := r.2.1, v := r.2.2 }, none)

/-- `Current`: the key and value at the current position, with tombstone and
merge interpretation. -/
def iteratorSingle.Current (iter : iteratorSingle) : Bytes × Bytes × Option error :=
  if iter.pos ≥ iter.posEnd then
    (none, none, some error.ErrIteratorDone)
  else if iter.op = OperationDel then
    (none, none, none)
  else if iter.op = OperationMerge then
    let mo : Option MergeOperator :=
      match iter.options with
      | some o => o.MergeOperator
      | none => none
    match mo with
    | none => (iter.k, none, some error.ErrMergeOperatorNil)
    | some m =>
      let r := m.FullMerge iter.k none [iter.v]
      if !r.2 then
        (iter.k, none, some error.ErrMergeOperatorFullMergeFailed)
      else
        (iter.k, r.1, none)
  else
    (iter.k, iter.v, none)

/-- `CurrentEx`: the raw operation tag, key and value at the current
position. -/
def iteratorSingle.CurrentEx (iter : iteratorSingle) :
    EntryEx × Bytes × Bytes × Option error :=
  if iter.pos ≥ iter.posEnd then
    ({ Operation := 0 }, none, none, some error.ErrIteratorDone)
  else
    ({ Operation := iter.op }, iter.k, iter.v, none)

/-- `Current` as a method on its pointer receiver, in the state-passing style
of `Next` and `Close`: the cursor as the call leaves it, next to the values
the call returns.  Each `return` of the source is paired with the receiver as
the statements before it left it. -/
def iteratorSingle.CurrentStep (iter : iteratorSingle) :
    iteratorSingle × (Bytes × Bytes × Option error) :=
  if iter.pos ≥ iter.posEnd then
    (iter, (none, none, some error.ErrIteratorDone))
  else if iter.op = OperationDel then
    (iter, (none, none, none))
  else if iter.op = OperationMerge then
    let mo : Option MergeOperator :=
      match iter.options with
      | some o => o.MergeOperator
      | none => none
    match mo with
    | none => (iter, (iter.k, none, some error.ErrMergeOperatorNil))
    | some m =>
      let r := m.FullMerge iter.k none [iter.v]
      if !r.2 then
        (iter, (iter.k, none, some error.ErrMergeOperatorFullMergeFailed))
      else
        (iter, (iter.k, r.1, none))
  else
    (iter, (iter.k, iter.v, none))

/-- `CurrentEx` as a method on its pointer receiver: the cursor as the call
leaves it, next to the values the call returns. -/
def iteratorSingle.CurrentExStep (iter : iteratorSingle) :
    iteratorSingle × (EntryEx × Bytes × Bytes × Option error) :=
  if iter.pos ≥ iter.posEnd then
    (iter, ({ Operation := 0 }, none, none, some error.ErrIteratorDone))
  else
    (iter, ({ Operation := iter.op }, iter.k, iter.v, none))

/-- Number of `Next` calls that return nil before the first one that returns
`ErrIteratorDone`, running at most `fuel` calls (`none` when the fuel runs out
first). -/
def nextsUntilDone : Nat → iteratorSingle → Option Nat
  | 0, _ => none
  | fuel + 1, iter =>
    match iter.Next with
    | (_, some error.ErrIteratorDone) => some 0
    | (iter1, none) => (nextsUntilDone fuel iter1).map (· + 1)
    | (_, some _) => none

/-- The cursor and world after `n` successive `Close` calls. -/
def closeTimes : Nat → iteratorSingle → World → iteratorSingle × World
  | 0, iter, w => (iter, w)
  | n + 1, iter, w =>
    let r := iter.Close w
    closeTimes n r.1 r.2.2

/-! ## Concrete data used to evaluate the definitions -/

/-- A segment holding the given entries; positions outside the list read as
the zero triple. -/
def segmentOfList (es : List (Nat × Bytes × Bytes)) : segment where
  Len := es.length
  GetOperationKeyVal := fun pos =>
    if pos < 0 then (0, none, none) else (es.get? pos.toNat).getD (0, none, none)

/-- The three-entry segment `Set("a","1")`, `Delete("b",_)`, `Merge("c","+5")`. -/
def exampleSegment : segment :=
  segmentOfList
    [(OperationSet, some [97], some [49]),
     (OperationDel, some [98], none),
     (OperationMerge, some [99], some [43, 53])]

/-- A cursor over `exampleSegment` at position `p` with end bound `e`, the
cache loaded from position `p`, no resource and no options. -/
def exampleIter (p e : Int) : iteratorSingle :=
  let r := exampleSegment.GetOperationKeyVal p
  { s := exampleSegment, posEnd := e, pos := p, op := r.1, k := r.2.1, v := r.2.2,
    closer := none, options := none }

/-- A reducer that concatenates the base value (if any) and the partial
values. -/
def concatMerge : MergeOperator where
  FullMerge := fun _ base ops =>
    (some ((base.getD []) ++ (ops.map (fun o => o.getD [])).flatten), true)

/-- A reducer that always rejects the reduction, while still producing a
value. -/
def failMerge : MergeOperator where
  FullMerge := fun _ _ ops => (ops.head?.join, false)

/-- A resource whose `Close` always succeeds. -/
def okCloser : Closer where
  id := 7
  Close := fun _ => none

/-- A resource whose `Close` always fails. -/
def failingCloser : Closer where
  id := 9
  Close := fun _ => some (error.other "close failed")

/-! ## Call sequences, traces and the cache invariant -/

/-- One of the four operations of the cursor. -/
inductive Call where
  | Next
  | Current
  | CurrentEx
  | Close
  deriving DecidableEq, Repr

/-- What a call returned to its caller. -/
inductive Result where
  | next (err : Option error)
  | current (key val : Bytes) (err : Option error)
  | currentEx (entryEx : EntryEx) (key val : Bytes) (err : Option error)
  | close (err : Option error)
  deriving DecidableEq, Repr

/-- One call on the cursor: the cursor and world after it, and what it
returned.  `Current` and `CurrentEx` write no field of the cursor, so the
cursor after them is the cursor before them. -/
def step (c : Call) (st : iteratorSingle × World) : (iteratorSingle × World) × Result :=
  match c with
  | Call.Next =>
    let r := st.1.Next
    ((r.1, st.2), Result.next r.2)
  | Call.Current =>
    let r := st.1.Current
    (st, Result.current r.1 r.2.1 r.2.2)
  | Call.CurrentEx =>
    let r := st.1.CurrentEx
    (st, Result.currentEx r.1 r.2.1 r.2.2.1 r.2.2.2)
  | Call.Close =>
    let r := st.1.Close st.2
    ((r.1, r.2.2), Result.close r.2.1)

/-- A sequence of calls, in order: the final cursor and world, and the
results in call order. -/
def run : List Call → iteratorSingle × World → (iteratorSingle × World) × List Result
  | [], st => (st, [])
  | c :: cs, st =>
    let r := step c st
    let rs := run cs r.1
    (rs.1, r.2 :: rs.2)

/-- The result a call gives on an exhausted cursor: `Next` and `CurrentEx`
return `ErrIteratorDone`, `Current` returns `(nil, nil, ErrIteratorDone)`;
nothing is asked of `Close`. -/
def Result.reportsDone : Result → Prop
  | Result.next err => err = some error.ErrIteratorDone
  | Result.current key val err =>
    key = none ∧ val = none ∧ err = some error.ErrIteratorDone
  | Result.currentEx _ _ _ err => err = some error.ErrIteratorDone
  | Result.close _ => True

/-- The cursor after `n` successive `Next` calls. -/
def nextTimes : Nat → iteratorSingle → iteratorSingle
  | 0, iter => iter
  | n + 1, iter => nextTimes n iter.Next.1

/-- The cached triple is the segment's entry at `pos`. -/
def cacheLoaded (iter : iteratorSingle) : Prop :=
  (iter.op, iter.k, iter.v) = iter.s.GetOperationKeyVal iter.pos

/-- Cache coherence: whenever `pos < posEnd`, the cached triple is the
segment's entry at `pos`. -/
def coherent (iter : iteratorSingle) : Prop :=
  iter.pos < iter.posEnd → cacheLoaded iter

/-- `Next` with the positions it passes to `GetOperationKeyVal` recorded next
to its result. -/
def iteratorSingle.NextTraced (iter : iteratorSingle) :
    (iteratorSingle × Option error) × List Int :=
  let iter1 := { iter with pos := wrapInt (iter.pos + 1) }
  if iter1.pos ≥ iter1.posEnd then
    ((iter1, some error.ErrIteratorDone), [])
  else
    let r := iter1.s.GetOperationKeyVal iter1.pos
    (({ iter1 with op := r.1, k := r.2.1, v := r.2.2 }, none), [iter1.pos])

/-- The positions passed to `GetOperationKeyVal` by `n` successive `Next`
calls, in order. -/
def nextQueries : Nat → iteratorSingle → List Int
  | 0, _ => []
  | n + 1, iter => iter.NextTraced.2 ++ nextQueries n iter.NextTraced.1.1

/-! ## Helper lemmas -/

theorem OperationDel_ne_OperationMerge : OperationDel ≠ OperationMerge := by
  decide

theorem wrapInt_of_inRange (x : Int) (hlo : minInt ≤ x) (hhi : x ≤ maxInt) :
    wrapInt x = x := by
  unfold minInt at hlo
  unfold maxInt at hhi
  unfold wrapInt
  omega

theorem Next_of_lt (iter : iteratorSingle) (hlo : minInt ≤ iter.pos + 1)
    (hlt : iter.pos + 1 < iter.posEnd) (hhi : iter.posEnd ≤ maxInt) :
    iter.Next =
      ({ iter with
          pos := iter.pos + 1
          op := (iter.s.GetOperationKeyVal (iter.pos + 1)).1
          k := (iter.s.GetOperationKeyVal (iter.pos + 1)).2.1
          v := (iter.s.GetOperationKeyVal (iter.pos + 1)).2.2 }, none) := by
  have hw : wrapInt (iter.pos + 1) = iter.pos + 1 :=
    wrapInt_of_inRange _ hlo (by omega)
  simp only [iteratorSingle.Next, hw, ge_iff_le]
  rw [if_neg (by omega)]

theorem Next_of_ge (iter : iteratorSingle) (hlo : minInt ≤ iter.pos + 1)
    (hhi : iter.pos + 1 ≤ maxInt) (hge : iter.posEnd ≤ iter.pos + 1) :
    iter.Next = ({ iter with pos := iter.pos + 1 }, some error.ErrIteratorDone) := by
  have hw : wrapInt (iter.pos + 1) = iter.pos + 1 := wrapInt_of_inRange _ hlo hhi
  simp only [iteratorSingle.Next, hw, ge_iff_le]
  rw [if_pos hge]

theorem nextsUntilDone_eq (fuel : Nat) :
    ∀ iter : iteratorSingle, 0 ≤ iter.pos → iter.pos ≤ iter.posEnd →
      iter.posEnd < maxInt → (iter.posEnd - iter.pos).toNat < fuel →
      nextsUntilDone fuel iter = some (iter.posEnd - iter.pos - 1).toNat := by
  induction fuel with
  | zero => intro iter _ _ _ hf; omega
  | succ n ih =>
    intro iter h0 hse hmax hf
    have hmin : minInt ≤ iter.pos + 1 := by unfold minInt; omega
    by_cases hlt : iter.pos + 1 < iter.posEnd
    · have hN := Next_of_lt iter hmin hlt (le_of_lt hmax)
      have hrec := ih
        { iter with
            pos := iter.pos + 1
            op := (iter.s.GetOperationKeyVal (iter.pos + 1)).1
            k := (iter.s.GetOperationKeyVal (iter.pos + 1)).2.1
            v := (iter.s.GetOperationKeyVal (iter.pos + 1)).2.2 }
        (by show 0 ≤ iter.pos + 1; omega) (by show iter.pos + 1 ≤ iter.posEnd; omega)
        hmax (by show (iter.posEnd - (iter.pos + 1)).toNat < n; omega)
      simp only [nextsUntilDone, hN, hrec, Option.map_some']
      congr 1
      show (iter.posEnd - (iter.pos + 1) - 1).toNat + 1 = (iter.posEnd - iter.pos - 1).toNat
      omega
    · have hN := Next_of_ge iter hmin (by omega) (by omega)
      simp only [nextsUntilDone, hN]
      congr 1
      omega

theorem closeTimes_closer_none (n : Nat) :
    ∀ (iter : iteratorSingle) (w : World), iter.closer = none →
      closeTimes n iter w = (iter, w) := by
  induction n with
  | zero => intro iter w _; rfl
  | succ n ih =>
    intro iter w h
    have hc : iter.Close w = (iter, none, w) := by
      simp only [iteratorSingle.Close, h]
    simp only [closeTimes, hc]
    exact ih iter w h

/-! ## C1: `Current` on a `Delete` entry -/

/-- C1, as stated, fails: at position 1 of the example segment the cached tag
is `OperationDel` and the cached key is `"b"`, yet `Current` does not return
the cached key with a nil value and nil error (it returns a nil key). -/
theorem C1_counterexample :
    (exampleIter 1 3).pos < (exampleIter 1 3).posEnd ∧
    (exampleIter 1 3).op = OperationDel ∧
    (exampleIter 1 3).k = some [98] ∧
    (exampleIter 1 3).Current ≠ ((exampleIter 1 3).k, none, none) := by
  decide

/-- C1, amended: for every cursor state with `pos < posEnd` whose cached tag
is `OperationDel`, `Current` returns a nil key, a nil value and a nil error;
the cached key is not returned. -/
theorem C1_current_del (iter : iteratorSingle) (hpos : iter.pos < iter.posEnd)
    (hop : iter.op = OperationDel) :
    iter.Current = (none, none, none) := by
  unfold iteratorSingle.Current
  rw [if_neg (not_le.mpr hpos), if_pos hop]

theorem C1_current_del_witness :
    (exampleIter 1 3).pos < (exampleIter 1 3).posEnd ∧
    (exampleIter 1 3).op = OperationDel ∧
    (exampleIter 1 3).Current = (none, none, none) :=
  ⟨by decide, by decide, C1_current_del (exampleIter 1 3) (by decide) (by decide)⟩

/-! ## C2: number of successful `Next` calls -/

/-- C2, as stated, fails: over the three-entry example segment with start 0
and end bound 3, two `Next` calls return nil before the first
`ErrIteratorDone`, not `3 - 0`. -/
theorem C2_counterexample :
    (exampleIter 0 3).s.Len = 3 ∧
    (0 : Int) ≤ (exampleIter 0 3).pos ∧
    (exampleIter 0 3).pos ≤ (exampleIter 0 3).posEnd ∧
    (exampleIter 0 3).posEnd ≤ (exampleIter 0 3).s.Len ∧
    nextsUntilDone 4 (exampleIter 0 3) = some 2 ∧
    nextsUntilDone 4 (exampleIter 0 3) ≠
      some ((exampleIter 0 3).posEnd - (exampleIter 0 3).pos).toNat := by
  decide

/-- C2, amended: for a cursor with `0 ≤ pos ≤ posEnd ≤ N`, `N` the segment
length (below the largest `int`), the number of `Next` calls that return nil
before the first one that returns `ErrIteratorDone` is exactly
`posEnd - pos - 1` when `pos < posEnd` and `0` when `pos = posEnd`; the run
ends within `max 1 (posEnd - pos)` calls. -/
theorem C2_next_count (iter : iteratorSingle) (fuel : Nat)
    (hs : 0 ≤ iter.pos) (hse : iter.pos ≤ iter.posEnd)
    (heN : iter.posEnd ≤ iter.s.Len) (hN : (iter.s.Len : Int) < maxInt)
    (hfuel : (iter.posEnd - iter.pos).toNat < fuel) :
    nextsUntilDone fuel iter = some (iter.posEnd - iter.pos - 1).toNat :=
  nextsUntilDone_eq fuel iter hs hse (lt_of_le_of_lt heN hN) hfuel

theorem C2_next_count_witness :
    nextsUntilDone 4 (exampleIter 0 3) = some 2 :=
  C2_next_count (exampleIter 0 3) 4 (by decide) (by decide) (by decide) (by decide)
    (by decide)

/-! ## C3 to C6: `Current` on `Merge` and plain entries -/

/-- C3: for every cursor state with `pos < posEnd` whose cached tag is
`OperationMerge` and whose options carry a merge operator `mo` with
`mo.FullMerge k nil [v] = (m, true)`, `Current` returns `(k, m, nil)`; only
the reducer's answer on the cached key, a nil base value and the one-element
list `[v]` is assumed. -/
theorem C3_current_merge_ok (iter : iteratorSingle) (o : CollectionOptions)
    (mo : MergeOperator) (m : Bytes)
    (hpos : iter.pos < iter.posEnd) (hop : iter.op = OperationMerge)
    (hopt : iter.options = some o) (hmo : o.MergeOperator = some mo)
    (hmerge : mo.FullMerge iter.k none [iter.v] = (m, true)) :
    iter.Current = (iter.k, m, none) := by
  have hnd : ¬ iter.op = OperationDel := by
    rw [hop]; exact fun h => OperationDel_ne_OperationMerge h.symm
  unfold iteratorSingle.Current
  rw [if_neg (not_le.mpr hpos), if_neg hnd, if_pos hop]
  simp [hopt, hmo, hmerge]

theorem C3_current_merge_ok_witness :
    ({ exampleIter 2 3 with
        options := some { MergeOperator := some concatMerge } }).Current
      = (some [99], some [43, 53], none) :=
  C3_current_merge_ok
    { exampleIter 2 3 with options := some { MergeOperator := some concatMerge } }
    { MergeOperator := some concatMerge } concatMerge (some [43, 53])
    (by decide) (by decide) rfl rfl (by decide)

/-- C4: for every cursor state with `pos < posEnd` whose cached tag is
`OperationMerge` and with no reducer configured (`options` is nil, or
`options.MergeOperator` is nil), `Current` returns the cached key, a nil value
and `ErrMergeOperatorNil`. -/
theorem C4_current_merge_no_operator (iter : iteratorSingle)
    (hpos : iter.pos < iter.posEnd) (hop : iter.op = OperationMerge)
    (hno : iter.options = none ∨
      ∃ o : CollectionOptions, iter.options = some o ∧ o.MergeOperator = none) :
    iter.Current = (iter.k, none, some error.ErrMergeOperatorNil) := by
  have hnd : ¬ iter.op = OperationDel := by
    rw [hop]; exact fun h => OperationDel_ne_OperationMerge h.symm
  unfold iteratorSingle.Current
  rw [if_neg (not_le.mpr hpos), if_neg hnd, if_pos hop]
  rcases hno with h | ⟨o, ho, hm⟩
  · simp [h]
  · simp [ho, hm]

theorem C4_current_merge_no_operator_witness :
    (exampleIter 2 3).Current = (some [99], none, some error.ErrMergeOperatorNil) ∧
    ({ exampleIter 2 3 with options := some { MergeOperator := none } }).Current
      = (some [99], none, some error.ErrMergeOperatorNil) :=
  ⟨C4_current_merge_no_operator (exampleIter 2 3) (by decide) (by decide) (Or.inl rfl),
   C4_current_merge_no_operator
    { exampleIter 2 3 with options := some { MergeOperator := none } }
    (by decide) (by decide) (Or.inr ⟨{ MergeOperator := none }, rfl, rfl⟩)⟩

/-- C5: for every cursor state with `pos < posEnd` whose cached tag is
`OperationMerge` and whose configured reducer's `FullMerge k nil [v]` returns
a false success flag, `Current` returns the cached key, a nil value (whatever
the reducer produced is discarded) and `ErrMergeOperatorFullMergeFailed`. -/
theorem C5_current_merge_failed (iter : iteratorSingle) (o : CollectionOptions)
    (mo : MergeOperator)
    (hpos : iter.pos < iter.posEnd) (hop : iter.op = OperationMerge)
    (hopt : iter.options = some o) (hmo : o.MergeOperator = some mo)
    (hfail : (mo.FullMerge iter.k none [iter.v]).2 = false) :
    iter.Current = (iter.k, none, some error.ErrMergeOperatorFullMergeFailed) := by
  have hnd : ¬ iter.op = OperationDel := by
    rw [hop]; exact fun h => OperationDel_ne_OperationMerge h.symm
  unfold iteratorSingle.Current
  rw [if_neg (not_le.mpr hpos), if_neg hnd, if_pos hop]
  simp [hopt, hmo, hfail]

theorem C5_current_merge_failed_witness :
    (failMerge.FullMerge (some [99]) none [some [43, 53]]).1 = some [43, 53] ∧
    ({ exampleIter 2 3 with
        options := some { MergeOperator := some failMerge } }).Current
      = (some [99], none, some error.ErrMergeOperatorFullMergeFailed) :=
  ⟨by decide,
   C5_current_merge_failed
    { exampleIter 2 3 with options := some { MergeOperator := some failMerge } }
    { MergeOperator := some failMerge } failMerge
    (by decide) (by decide) rfl rfl (by decide)⟩

/-- C6: for every cursor state with `pos < posEnd` whose cached tag is neither
`OperationDel` nor `OperationMerge`, `Current` returns the cached key and
cached value verbatim with a nil error, whatever options (reducer or none) the
cursor carries. -/
theorem C6_current_plain (iter : iteratorSingle)
    (hpos : iter.pos < iter.posEnd) (hnd : iter.op ≠ OperationDel)
    (hnm : iter.op ≠ OperationMerge) :
    iter.Current = (iter.k, iter.v, none) ∧
    ∀ opts : Option CollectionOptions,
      ({ iter with options := opts }).Current = (iter.k, iter.v, none) := by
  refine ⟨?_, fun opts => ?_⟩
  · unfold iteratorSingle.Current
    rw [if_neg (not_le.mpr hpos), if_neg hnd, if_neg hnm]
  · unfold iteratorSingle.Current
    rw [if_neg (not_le.mpr hpos), if_neg hnd, if_neg hnm]

theorem C6_current_plain_witness :
    (exampleIter 0 3).Current = (some [97], some [49], none) ∧
    ∀ opts : Option CollectionOptions,
      ({ exampleIter 0 3 with options := opts }).Current
        = (some [97], some [49], none) :=
  C6_current_plain (exampleIter 0 3) (by decide) (by decide) (by decide)

/-! ## C7: `CurrentEx` returns the raw entry -/

/-- C7: for every cursor state with `pos < posEnd` and every cached tag,
`CurrentEx` returns `EntryEx{Operation: op}` with the raw cached tag, the raw
cached key and the raw cached value, with a nil error, and its result is the
same whatever options (reducer or none) the cursor carries. -/
theorem C7_currentEx_raw (iter : iteratorSingle) (hpos : iter.pos < iter.posEnd) :
    iter.CurrentEx = ({ Operation := iter.op }, iter.k, iter.v, none) ∧
    ∀ opts : Option CollectionOptions,
      ({ iter with options := opts }).CurrentEx = iter.CurrentEx := by
  have h : iter.CurrentEx = ({ Operation := iter.op }, iter.k, iter.v, none) := by
    unfold iteratorSingle.CurrentEx
    rw [if_neg (not_le.mpr hpos)]
  refine ⟨h, fun opts => ?_⟩
  rw [h]
  unfold iteratorSingle.CurrentEx
  rw [if_neg (not_le.mpr hpos)]

theorem C7_currentEx_raw_witness :
    (exampleIter 1 3).CurrentEx = ({ Operation := OperationDel }, some [98], none, none) ∧
    ∀ opts : Option CollectionOptions,
      ({ exampleIter 1 3 with options := opts }).CurrentEx = (exampleIter 1 3).CurrentEx :=
  C7_currentEx_raw (exampleIter 1 3) (by decide)

/-! ## C8: a cursor constructed with start equal to end bound -/

/-- C8: for every cursor constructed with start equal to end bound
(`0 ≤ pos = posEnd ≤ N`, `N` the segment length, below the largest `int`),
the very first call reports exhaustion whichever operation it is: `Current`
returns `(nil, nil, ErrIteratorDone)`, `CurrentEx` returns
`(EntryEx{}, nil, nil, ErrIteratorDone)` and `Next` returns
`ErrIteratorDone`; no key or value is yielded. -/
theorem C8_empty_range_done (iter : iteratorSingle)
    (hs : 0 ≤ iter.pos) (heq : iter.pos = iter.posEnd)
    (heN : iter.posEnd ≤ iter.s.Len) (hN : (iter.s.Len : Int) < maxInt) :
    iter.Current = (none, none, some error.ErrIteratorDone) ∧
    iter.CurrentEx = ({ Operation := 0 }, none, none, some error.ErrIteratorDone) ∧
    iter.Next.2 = some error.ErrIteratorDone := by
  have hge : iter.pos ≥ iter.posEnd := le_of_eq heq.symm
  refine ⟨?_, ?_, ?_⟩
  · unfold iteratorSingle.Current
    rw [if_pos hge]
  · unfold iteratorSingle.CurrentEx
    rw [if_pos hge]
  · have hmin : minInt ≤ iter.pos + 1 := by unfold minInt; omega
    rw [Next_of_ge iter hmin (by omega) (by omega)]

theorem C8_empty_range_done_witness :
    (exampleIter 3 3).Current = (none, none, some error.ErrIteratorDone) ∧
    (exampleIter 3 3).CurrentEx
      = ({ Operation := 0 }, none, none, some error.ErrIteratorDone) ∧
    (exampleIter 3 3).Next.2 = some error.ErrIteratorDone :=
  C8_empty_range_done (exampleIter 3 3) (by decide) (by decide) (by decide) (by decide)

/-! ## C9 and C10: `Close` -/

/-- C9: `Close` is idempotent: for every cursor state, a second `Close` right
after the first leaves the cursor and the world as the first left them and
returns the same value (nil); after any positive number of `Close` calls the
owned resource's `Close` has been invoked exactly once (the log of
invocations has grown by that single entry), and never when no resource is
owned. -/
theorem C9_close_idempotent (iter : iteratorSingle) (w : World) (n : Nat) :
    ((iter.Close w).1.Close (iter.Close w).2.2).1 = (iter.Close w).1 ∧
    ((iter.Close w).1.Close (iter.Close w).2.2).2.1 = (iter.Close w).2.1 ∧
    ((iter.Close w).1.Close (iter.Close w).2.2).2.2 = (iter.Close w).2.2 ∧
    (closeTimes (n + 1) iter w).2 =
      (match iter.closer with
       | some c => c.id :: w
       | none => w) := by
  cases hc : iter.closer with
  | none =>
    have h1 : iter.Close w = (iter, none, w) := by
      simp only [iteratorSingle.Close, hc]
    refine ⟨?_, ?_, ?_, ?_⟩
    · rw [h1, h1]
    · rw [h1, h1]
    · rw [h1, h1]
    · rw [closeTimes_closer_none (n + 1) iter w hc]
  | some c =>
    have h1 : iter.Close w = ({ iter with closer := none }, none, c.id :: w) := by
      simp only [iteratorSingle.Close, hc, Closer.invoke]
    have h2 : ∀ w2 : World,
        ({ iter with closer := none } : iteratorSingle).Close w2
          = ({ iter with closer := none }, none, w2) := by
      intro w2
      simp only [iteratorSingle.Close]
    refine ⟨?_, ?_, ?_, ?_⟩
    · rw [h1, h2]
    · rw [h1, h2]
    · rw [h1, h2]
    · simp only [closeTimes, h1]
      rw [closeTimes_closer_none n _ _ rfl]

/-- C10, as stated, fails: the owned resource's `Close` returns a failure, yet
the cursor's `Close` returns nil. -/
theorem C10_counterexample :
    ({ exampleIter 0 3 with closer := some failingCloser }).closer = some failingCloser ∧
    failingCloser.Close [] = some (error.other "close failed") ∧
    (({ exampleIter 0 3 with closer := some failingCloser }).Close []).2.1 = none := by
  refine ⟨rfl, rfl, rfl⟩

/-- C10, amended: if the owned resource's `Close` returns a failure `e`
(first conjunct), the cursor's `Close` discards it and returns nil; the
resource's `Close` has been invoked once, the internal closer reference is cleared, and a second `Close` does not
release the resource again (it leaves the world as it is and returns nil). -/
theorem C10_close_failure_discarded (iter : iteratorSingle) (w : World) (c : Closer)
    (e : error) (hc : iter.closer = some c) (hfail : c.Close w = some e) :
    (c.invoke w).1 = some e ∧
    (iter.Close w).2.1 = none ∧
    (iter.Close w).2.2 = c.id :: w ∧
    (iter.Close w).1.closer = none ∧
    ((iter.Close w).1.Close (iter.Close w).2.2).2.2 = (iter.Close w).2.2 ∧
    ((iter.Close w).1.Close (iter.Close w).2.2).2.1 = none := by
  have h1 : iter.Close w = ({ iter with closer := none }, none, c.id :: w) := by
    simp only [iteratorSingle.Close, hc, Closer.invoke]
  have h2 : ∀ w2 : World,
      ({ iter with closer := none } : iteratorSingle).Close w2
        = ({ iter with closer := none }, none, w2) := by
    intro w2
    simp only [iteratorSingle.Close]
  refine ⟨?_, ?_, ?_, ?_, ?_, ?_⟩
  · simp only [Closer.invoke, hfail]
  · rw [h1]
  · rw [h1]
  · rw [h1]
  · rw [h1, h2]
  · rw [h1, h2]

theorem C10_close_failure_discarded_witness :
    (failingCloser.invoke []).1 = some (error.other "close failed") ∧
    (({ exampleIter 0 3 with closer := some failingCloser }).Close []).2.1 = none ∧
    (({ exampleIter 0 3 with closer := some failingCloser }).Close []).2.2 = [9] ∧
    (({ exampleIter 0 3 with closer := some failingCloser }).Close []).1.closer = none ∧
    ((({ exampleIter 0 3 with closer := some failingCloser }).Close []).1.Close
        (({ exampleIter 0 3 with closer := some failingCloser }).Close []).2.2).2.2
      = (({ exampleIter 0 3 with closer := some failingCloser }).Close []).2.2 ∧
    ((({ exampleIter 0 3 with closer := some failingCloser }).Close []).1.Close
        (({ exampleIter 0 3 with closer := some failingCloser }).Close []).2.2).2.1
      = none :=
  C10_close_failure_discarded
    { exampleIter 0 3 with closer := some failingCloser } [] failingCloser
    (error.other "close failed") rfl rfl

/-! ## Helper lemmas on call sequences -/

theorem Next_of_exhausted (iter : iteratorSingle) (hlo : minInt ≤ iter.pos)
    (hex : iter.posEnd ≤ iter.pos) (hlt : iter.pos < maxInt) :
    iter.Next = ({ iter with pos := iter.pos + 1 }, some error.ErrIteratorDone) :=
  Next_of_ge iter (by omega) (by omega) (by omega)

theorem Next_of_maxInt (iter : iteratorSingle) (hpos : iter.pos = maxInt)
    (hend : minInt < iter.posEnd) :
    iter.Next.2 = none ∧ iter.Next.1.pos = minInt ∧ iter.Next.1.posEnd = iter.posEnd := by
  have hw : wrapInt (iter.pos + 1) = minInt := by
    rw [hpos]; decide
  have hnot : ¬ (minInt ≥ iter.posEnd) := by omega
  simp only [iteratorSingle.Next, hw, if_neg hnot, and_self]

theorem step_Next_result (st : iteratorSingle × World) :
    (step Call.Next st).2 = Result.next st.1.Next.2 := rfl

theorem step_Next_cursor (st : iteratorSingle × World) :
    (step Call.Next st).1.1 = st.1.Next.1 := rfl

theorem run_exhausted (calls : List Call) :
    ∀ (iter : iteratorSingle) (w : World), minInt ≤ iter.pos → iter.posEnd ≤ iter.pos →
      iter.pos + (calls.count Call.Next : Nat) ≤ maxInt →
      (run calls (iter, w)).1.1.pos = iter.pos + (calls.count Call.Next : Nat) ∧
      (run calls (iter, w)).1.1.posEnd = iter.posEnd ∧
      ∀ r ∈ (run calls (iter, w)).2, r.reportsDone := by
  induction calls with
  | nil =>
    intro iter w _ _ _
    simp [run]
  | cons c cs ih =>
    intro iter w hlo hex hn
    have hge : iter.pos ≥ iter.posEnd := hex
    cases c with
    | Next =>
      have hcount : (Call.Next :: cs).count Call.Next = cs.count Call.Next + 1 := by
        simp
      rw [hcount] at hn ⊢
      have hN := Next_of_exhausted iter hlo hex (by omega)
      have hrec := ih { iter with pos := iter.pos + 1 } w
        (by show minInt ≤ iter.pos + 1; omega)
        (by show iter.posEnd ≤ iter.pos + 1; omega)
        (by show iter.pos + 1 + (cs.count Call.Next : Nat) ≤ maxInt; push_cast at hn; omega)
      obtain ⟨h1, h2, h3⟩ := hrec
      simp only [run, step, hN]
      refine ⟨?_, ?_, ?_⟩
      · rw [h1]; show iter.pos + 1 + _ = _; push_cast; omega
      · rw [h2]
      · intro r hr
        rcases List.mem_cons.mp hr with h | h
        · rw [h]; rfl
        · exact h3 r h
    | Current =>
      have hcount : (Call.Current :: cs).count Call.Next = cs.count Call.Next := by
        simp
      rw [hcount] at hn ⊢
      obtain ⟨h1, h2, h3⟩ := ih iter w hlo hex hn
      have hcur : iter.Current = (none, none, some error.ErrIteratorDone) := by
        unfold iteratorSingle.Current
        rw [if_pos hge]
      simp only [run, step, hcur]
      refine ⟨h1, h2, ?_⟩
      intro r hr
      rcases List.mem_cons.mp hr with h | h
      · rw [h]; exact ⟨rfl, rfl, rfl⟩
      · exact h3 r h
    | CurrentEx =>
      have hcount : (Call.CurrentEx :: cs).count Call.Next = cs.count Call.Next := by
        simp
      rw [hcount] at hn ⊢
      obtain ⟨h1, h2, h3⟩ := ih iter w hlo hex hn
      have hcur : iter.CurrentEx
          = ({ Operation := 0 }, none, none, some error.ErrIteratorDone) := by
        unfold iteratorSingle.CurrentEx
        rw [if_pos hge]
      simp only [run, step, hcur]
      refine ⟨h1, h2, ?_⟩
      intro r hr
      rcases List.mem_cons.mp hr with h | h
      · rw [h]; rfl
      · exact h3 r h
    | Close =>
      have hcount : (Call.Close :: cs).count Call.Next = cs.count Call.Next := by
        simp
      rw [hcount] at hn ⊢
      have hp : (iter.Close w).1.pos = iter.pos ∧ (iter.Close w).1.posEnd = iter.posEnd := by
        unfold iteratorSingle.Close
        cases iter.closer <;> exact ⟨rfl, rfl⟩
      obtain ⟨h1, h2, h3⟩ := ih (iter.Close w).1 (iter.Close w).2.2
        (by rw [hp.1]; exact hlo) (by rw [hp.1, hp.2]; exact hex) (by rw [hp.1]; exact hn)
      simp only [run, step]
      refine ⟨by rw [h1, hp.1], by rw [h2, hp.2], ?_⟩
      intro r hr
      rcases List.mem_cons.mp hr with h | h
      · rw [h]; trivial
      · exact h3 r h

/-! ## C11 and C12: exhaustion and the wrap-around of `pos` -/

/-- C11, as stated, fails: the cursor constructed with `pos = posEnd = 3` is
exhausted, yet after `2^63 - 4` further `Next` calls `pos` is the largest
`int`, and the `Next` call after those returns nil and leaves
`pos < posEnd`: the cursor is active again. -/
theorem C11_counterexample :
    (exampleIter 3 3).posEnd ≤ (exampleIter 3 3).pos ∧
    (step Call.Next
        (run (List.replicate 9223372036854775804 Call.Next) (exampleIter 3 3, [])).1).2
      = Result.next none ∧
    (step Call.Next
        (run (List.replicate 9223372036854775804 Call.Next) (exampleIter 3 3, [])).1).1.1.pos
      < (step Call.Next
        (run (List.replicate 9223372036854775804 Call.Next)
          (exampleIter 3 3, [])).1).1.1.posEnd := by
  have hcount : (List.replicate 9223372036854775804 Call.Next).count Call.Next
      = 9223372036854775804 := List.count_replicate_self _ _
  have h := run_exhausted (List.replicate 9223372036854775804 Call.Next) (exampleIter 3 3) []
    (by decide) (by decide) (by rw [hcount]; decide)
  rw [hcount] at h
  obtain ⟨hpos, hend, _⟩ := h
  have hmax : (run (List.replicate 9223372036854775804 Call.Next)
      (exampleIter 3 3, [])).1.1.pos = maxInt := by
    rw [hpos]; decide
  have hend3 : (run (List.replicate 9223372036854775804 Call.Next)
      (exampleIter 3 3, [])).1.1.posEnd = 3 := by
    rw [hend]; rfl
  obtain ⟨hn1, hn2, hn3⟩ := Next_of_maxInt _ hmax (by rw [hend3]; decide)
  refine ⟨by decide, ?_, ?_⟩
  · rw [step_Next_result, hn1]
  · rw [step_Next_cursor, hn2, hn3, hend3]
    decide

/-- C11, amended: from every state with `pos ≥ posEnd`, after any finite
sequence of `Next`, `Current`, `CurrentEx` and `Close` calls whose `Next`
calls do not take `pos` past the largest `int` (`pos` plus their number is at
most `maxInt`), the state still has `pos ≥ posEnd`, every `Next` in the
sequence returns `ErrIteratorDone`, every `Current` returns
`(nil, nil, ErrIteratorDone)` and every `CurrentEx` returns
`ErrIteratorDone`. -/
theorem C11_exhaustion_absorbing (iter : iteratorSingle) (w : World) (calls : List Call)
    (hlo : minInt ≤ iter.pos) (hex : iter.posEnd ≤ iter.pos)
    (hn : iter.pos + (calls.count Call.Next : Nat) ≤ maxInt) :
    (run calls (iter, w)).1.1.posEnd ≤ (run calls (iter, w)).1.1.pos ∧
    ∀ r ∈ (run calls (iter, w)).2, r.reportsDone := by
  obtain ⟨h1, h2, h3⟩ := run_exhausted calls iter w hlo hex hn
  refine ⟨?_, h3⟩
  rw [h1, h2]
  omega

theorem C11_exhaustion_absorbing_witness :
    (run [Call.Next, Call.Current, Call.CurrentEx, Call.Close, Call.Next]
        (exampleIter 3 3, [])).1.1.posEnd
      ≤ (run [Call.Next, Call.Current, Call.CurrentEx, Call.Close, Call.Next]
        (exampleIter 3 3, [])).1.1.pos ∧
    ∀ r ∈ (run [Call.Next, Call.Current, Call.CurrentEx, Call.Close, Call.Next]
        (exampleIter 3 3, [])).2, r.reportsDone :=
  C11_exhaustion_absorbing (exampleIter 3 3) []
    [Call.Next, Call.Current, Call.CurrentEx, Call.Close, Call.Next]
    (by decide) (by decide) (by decide)

/-- C12, as stated, fails: with `pos` the largest `int` and `posEnd = 3` the
state has `pos ≥ posEnd`, yet `Next` wraps `pos` to the smallest `int`, which
is below `posEnd`, and returns nil. -/
theorem C12_counterexample :
    (exampleIter maxInt 3).posEnd ≤ (exampleIter maxInt 3).pos ∧
    (exampleIter maxInt 3).Next.2 = none ∧
    (exampleIter maxInt 3).Next.1.pos = minInt ∧
    (exampleIter maxInt 3).Next.1.pos < (exampleIter maxInt 3).Next.1.posEnd := by
  decide

/-- C12, amended: with `pos` and `posEnd` 64-bit signed `int`s, for every
state with `pos ≥ posEnd` and `pos` below the largest `int`, `Next` returns
`ErrIteratorDone`, the new `pos` is `pos + 1` and the resulting state still
satisfies `pos ≥ posEnd`. -/
theorem C12_next_exhausted_no_wrap (iter : iteratorSingle)
    (hlo : minInt ≤ iter.pos) (hex : iter.posEnd ≤ iter.pos) (hlt : iter.pos < maxInt) :
    iter.Next.2 = some error.ErrIteratorDone ∧
    iter.Next.1.pos = iter.pos + 1 ∧
    iter.Next.1.posEnd ≤ iter.Next.1.pos := by
  rw [Next_of_exhausted iter hlo hex hlt]
  refine ⟨rfl, rfl, ?_⟩
  show iter.posEnd ≤ iter.pos + 1
  omega

theorem C12_next_exhausted_no_wrap_witness :
    (exampleIter 3 3).Next.2 = some error.ErrIteratorDone ∧
    (exampleIter 3 3).Next.1.pos = (exampleIter 3 3).pos + 1 ∧
    (exampleIter 3 3).Next.1.posEnd ≤ (exampleIter 3 3).Next.1.pos :=
  C12_next_exhausted_no_wrap (exampleIter 3 3) (by decide) (by decide) (by decide)

/-! ## C13: the example scenario -/

/-- C13, as stated, fails: on the three-entry example the third result of the
trace is not `("b", nil, nil)`; the `Delete` entry yields a nil key. -/
theorem C13_counterexample :
    (run [Call.Current, Call.Next, Call.Current, Call.Next, Call.Current, Call.Next]
        (exampleIter 0 3, [])).2
      ≠ [Result.current (some [97]) (some [49]) none,
         Result.next none,
         Result.current (some [98]) none none,
         Result.next none,
         Result.current (some [99]) none (some error.ErrMergeOperatorNil),
         Result.next (some error.ErrIteratorDone)] := by
  decide

/-- C13, amended: for the three-entry segment `Set("a","1")`, `Delete("b",_)`,
`Merge("c","+5")` and a cursor with `pos = 0`, `posEnd = 3`, the cache loaded
from position 0 and no reducer, the calls `Current, Next, Current, Next,
Current, Next` return in order `("a","1",nil)`; nil; `(nil, nil, nil)` (the
deleted entry: nil key and nil value); nil; `("c", nil, ErrMergeOperatorNil)`;
`ErrIteratorDone`. -/
theorem C13_example_trace :
    (run [Call.Current, Call.Next, Call.Current, Call.Next, Call.Current, Call.Next]
        (exampleIter 0 3, [])).2
      = [Result.current (some [97]) (some [49]) none,
         Result.next none,
         Result.current none none none,
         Result.next none,
         Result.current (some [99]) none (some error.ErrMergeOperatorNil),
         Result.next (some error.ErrIteratorDone)] := by
  decide

/-! ## C14: in-order traversal -/

theorem nextTimes_of_lt (j : Nat) :
    ∀ iter : iteratorSingle, minInt ≤ iter.pos + 1 → iter.posEnd ≤ maxInt →
      cacheLoaded iter → iter.pos + (j : Int) < iter.posEnd →
      (nextTimes j iter).pos = iter.pos + (j : Int) ∧
      (nextTimes j iter).posEnd = iter.posEnd ∧
      (nextTimes j iter).s = iter.s ∧
      cacheLoaded (nextTimes j iter) := by
  induction j with
  | zero =>
    intro iter _ _ hc _
    exact ⟨by simp [nextTimes], rfl, rfl, hc⟩
  | succ j ih =>
    intro iter hlo hhi _ hlt
    have hN := Next_of_lt iter hlo (by push_cast at hlt; omega) hhi
    have hrec := ih
      { iter with
          pos := iter.pos + 1
          op := (iter.s.GetOperationKeyVal (iter.pos + 1)).1
          k := (iter.s.GetOperationKeyVal (iter.pos + 1)).2.1
          v := (iter.s.GetOperationKeyVal (iter.pos + 1)).2.2 }
      (by show minInt ≤ iter.pos + 1 + 1; omega) hhi rfl
      (by show iter.pos + 1 + (j : Int) < iter.posEnd; push_cast at hlt; omega)
    obtain ⟨h1, h2, h3, h4⟩ := hrec
    simp only [nextTimes, hN]
    refine ⟨?_, h2, h3, h4⟩
    rw [h1]
    show iter.pos + 1 + (j : Int) = iter.pos + ((j + 1 : Nat) : Int)
    push_cast
    omega

/-- C14: for every cursor constructed at start `s` with end `e`
(`0 ≤ s < e ≤ N`, `N` the segment length, an `int`) and the cache loaded from
position `s`: for every `j` with `0 ≤ j < e - s`, after exactly `j` `Next`
calls the state has `pos = s + j` and `CurrentEx` returns exactly the triple
`GetOperationKeyVal (s + j)` of the segment with a nil error; the first
`e - s - 1` `Next` calls return nil and the `(e - s)`-th `Next` call returns
`ErrIteratorDone`. -/
theorem C14_in_order_traversal (iter : iteratorSingle)
    (hs : 0 ≤ iter.pos) (hlt : iter.pos < iter.posEnd)
    (heN : iter.posEnd ≤ iter.s.Len) (hN : (iter.s.Len : Int) ≤ maxInt)
    (hc : cacheLoaded iter) :
    (∀ j : Nat, (j : Int) < iter.posEnd - iter.pos →
      (nextTimes j iter).pos = iter.pos + (j : Int) ∧
      (nextTimes j iter).CurrentEx =
        ({ Operation := (iter.s.GetOperationKeyVal (iter.pos + (j : Int))).1 },
         (iter.s.GetOperationKeyVal (iter.pos + (j : Int))).2.1,
         (iter.s.GetOperationKeyVal (iter.pos + (j : Int))).2.2, none)) ∧
    (∀ i : Nat, (i : Int) < iter.posEnd - iter.pos - 1 →
      (nextTimes i iter).Next.2 = none) ∧
    (nextTimes (iter.posEnd - iter.pos - 1).toNat iter).Next.2
      = some error.ErrIteratorDone := by
  have hlo : minInt ≤ iter.pos + 1 := by unfold minInt; omega
  have hhi : iter.posEnd ≤ maxInt := le_trans heN hN
  refine ⟨fun j hj => ?_, fun i hi => ?_, ?_⟩
  · obtain ⟨h1, h2, h3, h4⟩ := nextTimes_of_lt j iter hlo hhi hc (by omega)
    refine ⟨h1, ?_⟩
    have hact : ¬ ((nextTimes j iter).pos ≥ (nextTimes j iter).posEnd) := by
      rw [h1, h2]; omega
    unfold cacheLoaded at h4
    rw [h3, h1] at h4
    unfold iteratorSingle.CurrentEx
    rw [if_neg hact, ← h4]
  · obtain ⟨h1, h2, _, _⟩ := nextTimes_of_lt i iter hlo hhi hc (by omega)
    rw [Next_of_lt (nextTimes i iter) (by rw [h1]; unfold minInt; omega)
      (by rw [h1, h2]; omega) (by rw [h2]; exact hhi)]
  · obtain ⟨h1, h2, _, _⟩ :=
      nextTimes_of_lt (iter.posEnd - iter.pos - 1).toNat iter hlo hhi hc (by omega)
    rw [Next_of_ge (nextTimes (iter.posEnd - iter.pos - 1).toNat iter)
      (by rw [h1]; unfold minInt; omega) (by rw [h1]; omega) (by rw [h1, h2]; omega)]

theorem C14_in_order_traversal_witness :
    (∀ j : Nat, (j : Int) < (exampleIter 0 3).posEnd - (exampleIter 0 3).pos →
      (nextTimes j (exampleIter 0 3)).pos = (exampleIter 0 3).pos + (j : Int) ∧
      (nextTimes j (exampleIter 0 3)).CurrentEx =
        ({ Operation :=
            ((exampleIter 0 3).s.GetOperationKeyVal ((exampleIter 0 3).pos + (j : Int))).1 },
         ((exampleIter 0 3).s.GetOperationKeyVal ((exampleIter 0 3).pos + (j : Int))).2.1,
         ((exampleIter 0 3).s.GetOperationKeyVal ((exampleIter 0 3).pos + (j : Int))).2.2,
         none)) ∧
    (∀ i : Nat, (i : Int) < (exampleIter 0 3).posEnd - (exampleIter 0 3).pos - 1 →
      (nextTimes i (exampleIter 0 3)).Next.2 = none) ∧
    (nextTimes ((exampleIter 0 3).posEnd - (exampleIter 0 3).pos - 1).toNat
        (exampleIter 0 3)).Next.2
      = some error.ErrIteratorDone :=
  C14_in_order_traversal (exampleIter 0 3) (by decide) (by decide) (by decide) (by decide) rfl

/-! ## C15: the cache-coherence invariant -/

theorem coherent_Next (iter : iteratorSingle) : coherent iter.Next.1 := by
  unfold iteratorSingle.Next
  by_cases h : wrapInt (iter.pos + 1) ≥ iter.posEnd
  · simp only [h, if_true]
    intro hlt
    exact absurd hlt (not_lt.mpr h)
  · simp only [h, if_false]
    intro _
    rfl

theorem coherent_Close (iter : iteratorSingle) (w : World) (hc : coherent iter) :
    coherent (iter.Close w).1 := by
  unfold iteratorSingle.Close
  cases iter.closer with
  | none => exact hc
  | some c => exact hc

theorem coherent_step (c : Call) (st : iteratorSingle × World) (hc : coherent st.1) :
    coherent (step c st).1.1 := by
  cases c with
  | Next => exact coherent_Next st.1
  | Current => exact hc
  | CurrentEx => exact hc
  | Close => exact coherent_Close st.1 st.2 hc

theorem coherent_run (calls : List Call) :
    ∀ st : iteratorSingle × World, coherent st.1 → coherent (run calls st).1.1 := by
  induction calls with
  | nil => intro st hc; exact hc
  | cons c cs ih =>
    intro st hc
    exact ih (step c st).1 (coherent_step c st hc)

/-- C15: the predicate "if `pos < posEnd` then `(op, k, v)` is
`s.GetOperationKeyVal pos`" is preserved by every operation (`Next`,
`Current`, `CurrentEx`, `Close`); hence if it holds at construction it holds
after every finite sequence of calls. -/
theorem C15_cache_coherence (iter : iteratorSingle) (w : World) (hc : coherent iter) :
    (∀ c : Call, coherent (step c (iter, w)).1.1) ∧
    ∀ calls : List Call, coherent (run calls (iter, w)).1.1 :=
  ⟨fun c => coherent_step c (iter, w) hc, fun calls => coherent_run calls (iter, w) hc⟩

theorem C15_cache_coherence_witness :
    coherent (exampleIter 0 3) ∧
    (∀ c : Call, coherent (step c (exampleIter 0 3, [])).1.1) ∧
    ∀ calls : List Call, coherent (run calls (exampleIter 0 3, [])).1.1 :=
  ⟨fun _ => rfl, C15_cache_coherence (exampleIter 0 3) [] (fun _ => rfl)⟩

/-! ## C16 to C18: frame properties -/

theorem run_append (a b : List Call) :
    ∀ st : iteratorSingle × World,
      run (a ++ b) st = ((run b (run a st).1).1, (run a st).2 ++ (run b (run a st).1).2) := by
  induction a with
  | nil => intro st; rfl
  | cons c cs ih =>
    intro st
    show ((run (cs ++ b) (step c st).1).1, (step c st).2 :: (run (cs ++ b) (step c st).1).2) = _
    rw [ih]
    rfl

theorem CurrentStep_eq (iter : iteratorSingle) :
    iter.CurrentStep = (iter, iter.Current) := by
  unfold iteratorSingle.CurrentStep iteratorSingle.Current
  by_cases hge : iter.pos ≥ iter.posEnd
  · rw [if_pos hge, if_pos hge]
  · rw [if_neg hge, if_neg hge]
    by_cases hd : iter.op = OperationDel
    · rw [if_pos hd, if_pos hd]
    · rw [if_neg hd, if_neg hd]
      by_cases hm : iter.op = OperationMerge
      · rw [if_pos hm, if_pos hm]
        cases iter.options with
        | none => rfl
        | some o =>
          cases hmo : o.MergeOperator with
          | none => simp only [hmo]
          | some m =>
            by_cases hok : (m.FullMerge iter.k none [iter.v]).2 = true
            · simp only [hmo, hok, Bool.not_true, Bool.false_eq_true, if_false]
            · have hf : (m.FullMerge iter.k none [iter.v]).2 = false := by
                cases h : (m.FullMerge iter.k none [iter.v]).2
                · rfl
                · exact absurd h hok
              simp only [hmo, hf, Bool.not_false, if_true]
      · rw [if_neg hm, if_neg hm]

theorem CurrentExStep_eq (iter : iteratorSingle) :
    iter.CurrentExStep = (iter, iter.CurrentEx) := by
  unfold iteratorSingle.CurrentExStep iteratorSingle.CurrentEx
  by_cases hge : iter.pos ≥ iter.posEnd
  · rw [if_pos hge, if_pos hge]
  · rw [if_neg hge, if_neg hge]

/-- C16: `Current` and `CurrentEx` are read-only on the cursor: for every
state and every outcome (success, `ErrIteratorDone`, `ErrMergeOperatorNil`,
`ErrMergeOperatorFullMergeFailed`) the cursor the call leaves behind is the
cursor it was given (`pos`, `posEnd`, the cached triple, the closer, the
options and the segment unchanged), so after a peek, failed or not, `Next`,
`Current` and `CurrentEx`, and every sequence of calls, give the results they
would have given without it. -/
theorem C16_peek_read_only (iter : iteratorSingle) (w : World) (calls : List Call) :
    iter.CurrentStep.1 = iter ∧
    iter.CurrentExStep.1 = iter ∧
    iter.CurrentStep.2 = iter.Current ∧
    iter.CurrentExStep.2 = iter.CurrentEx ∧
    iter.CurrentStep.1.Next = iter.Next ∧
    iter.CurrentStep.1.CurrentStep = iter.CurrentStep ∧
    iter.CurrentStep.1.CurrentExStep = iter.CurrentExStep ∧
    iter.CurrentExStep.1.Next = iter.Next ∧
    iter.CurrentExStep.1.CurrentStep = iter.CurrentStep ∧
    iter.CurrentExStep.1.CurrentExStep = iter.CurrentExStep ∧
    run calls (iter.CurrentStep.1, w) = run calls (iter, w) ∧
    run calls (iter.CurrentExStep.1, w) = run calls (iter, w) := by
  have h1 : iter.CurrentStep.1 = iter := by rw [CurrentStep_eq]
  have h2 : iter.CurrentExStep.1 = iter := by rw [CurrentExStep_eq]
  have h3 : iter.CurrentStep.2 = iter.Current := by rw [CurrentStep_eq]
  have h4 : iter.CurrentExStep.2 = iter.CurrentEx := by rw [CurrentExStep_eq]
  refine ⟨h1, h2, h3, h4, ?_, ?_, ?_, ?_, ?_, ?_, ?_, ?_⟩
  · rw [h1]
  · rw [h1]
  · rw [h1]
  · rw [h2]
  · rw [h2]
  · rw [h2]
  · rw [h1]
  · rw [h2]

/-- C17: `Close` changes nothing but the closer field: for every state, after
`Close` the fields `pos`, `posEnd`, `op`, `k`, `v`, `options` and the segment
reference are unchanged, the closer is nil, and the call returns nil. -/
theorem C17_close_frame (iter : iteratorSingle) (w : World) :
    (iter.Close w).1.pos = iter.pos ∧
    (iter.Close w).1.posEnd = iter.posEnd ∧
    (iter.Close w).1.op = iter.op ∧
    (iter.Close w).1.k = iter.k ∧
    (iter.Close w).1.v = iter.v ∧
    (iter.Close w).1.options = iter.options ∧
    (iter.Close w).1.s = iter.s ∧
    (iter.Close w).1.closer = none ∧
    (iter.Close w).2.1 = none := by
  cases hc : iter.closer with
  | none =>
    have h1 : iter.Close w = (iter, none, w) := by
      simp only [iteratorSingle.Close, hc]
    rw [h1]
    exact ⟨rfl, rfl, rfl, rfl, rfl, rfl, rfl, hc, rfl⟩
  | some c =>
    have h1 : iter.Close w = ({ iter with closer := none }, none, c.id :: w) := by
      simp only [iteratorSingle.Close, hc, Closer.invoke]
    rw [h1]
    exact ⟨rfl, rfl, rfl, rfl, rfl, rfl, rfl, rfl, rfl⟩

/-- C18: `Next` returns either `ErrIteratorDone` or nil.  In both cases it has
incremented `pos` by one (the 64-bit `pos++`, which is `pos + 1` whenever
`pos` is below the largest `int`) and left `posEnd`, closer, options and the
segment unchanged.  When it reports `ErrIteratorDone` the cached triple
`(op, k, v)` is unchanged; when it returns nil the cached triple has been
replaced by `GetOperationKeyVal` of the new `pos`. -/
theorem C18_next_frame (iter : iteratorSingle) :
    (iter.Next.2 = some error.ErrIteratorDone ∨ iter.Next.2 = none) ∧
    iter.Next.1.pos = wrapInt (iter.pos + 1) ∧
    (minInt ≤ iter.pos → iter.pos < maxInt → iter.Next.1.pos = iter.pos + 1) ∧
    iter.Next.1.posEnd = iter.posEnd ∧
    iter.Next.1.closer = iter.closer ∧
    iter.Next.1.options = iter.options ∧
    iter.Next.1.s = iter.s ∧
    (iter.Next.2 = some error.ErrIteratorDone →
      iter.Next.1.op = iter.op ∧ iter.Next.1.k = iter.k ∧ iter.Next.1.v = iter.v) ∧
    (iter.Next.2 = none →
      (iter.Next.1.op, iter.Next.1.k, iter.Next.1.v)
        = iter.s.GetOperationKeyVal iter.Next.1.pos) := by
  have hw : minInt ≤ iter.pos → iter.pos < maxInt →
      wrapInt (iter.pos + 1) = iter.pos + 1 :=
    fun h1 h2 => wrapInt_of_inRange _ (by omega) (by omega)
  by_cases h : wrapInt (iter.pos + 1) ≥ iter.posEnd
  · have hN : iter.Next
        = ({ iter with pos := wrapInt (iter.pos + 1) }, some error.ErrIteratorDone) := by
      simp only [iteratorSingle.Next, h, if_true]
    rw [hN]
    exact ⟨Or.inl rfl, rfl, hw, rfl, rfl, rfl, rfl, fun _ => ⟨rfl, rfl, rfl⟩,
      fun hnil => nomatch hnil⟩
  · have hN : iter.Next
        = ({ iter with
              pos := wrapInt (iter.pos + 1)
              op := (iter.s.GetOperationKeyVal (wrapInt (iter.pos + 1))).1
              k := (iter.s.GetOperationKeyVal (wrapInt (iter.pos + 1))).2.1
              v := (iter.s.GetOperationKeyVal (wrapInt (iter.pos + 1))).2.2 }, none) := by
      simp only [iteratorSingle.Next, h, if_false]
    rw [hN]
    exact ⟨Or.inr rfl, rfl, hw, rfl, rfl, rfl, rfl, (fun hd => nomatch hd), fun _ => rfl⟩

theorem C18_next_frame_witness :
    ((exampleIter 0 3).Next.2 = some error.ErrIteratorDone ∨ (exampleIter 0 3).Next.2 = none) ∧
    (exampleIter 0 3).Next.1.pos = wrapInt ((exampleIter 0 3).pos + 1) ∧
    (minInt ≤ (exampleIter 0 3).pos → (exampleIter 0 3).pos < maxInt →
      (exampleIter 0 3).Next.1.pos = (exampleIter 0 3).pos + 1) ∧
    (exampleIter 0 3).Next.1.posEnd = (exampleIter 0 3).posEnd ∧
    (exampleIter 0 3).Next.1.closer = (exampleIter 0 3).closer ∧
    (exampleIter 0 3).Next.1.options = (exampleIter 0 3).options ∧
    (exampleIter 0 3).Next.1.s = (exampleIter 0 3).s ∧
    ((exampleIter 0 3).Next.2 = some error.ErrIteratorDone →
      (exampleIter 0 3).Next.1.op = (exampleIter 0 3).op ∧
      (exampleIter 0 3).Next.1.k = (exampleIter 0 3).k ∧
      (exampleIter 0 3).Next.1.v = (exampleIter 0 3).v) ∧
    ((exampleIter 0 3).Next.2 = none →
      ((exampleIter 0 3).Next.1.op, (exampleIter 0 3).Next.1.k, (exampleIter 0 3).Next.1.v)
        = (exampleIter 0 3).s.GetOperationKeyVal (exampleIter 0 3).Next.1.pos) :=
  C18_next_frame (exampleIter 0 3)

/-! ## C19: `Current` as the interpretation of `CurrentEx` -/

theorem Current_err_of_active (iter : iteratorSingle) (hact : ¬ iter.pos ≥ iter.posEnd) :
    iter.Current.2.2 ≠ some error.ErrIteratorDone := by
  unfold iteratorSingle.Current
  rw [if_neg hact]
  by_cases hd : iter.op = OperationDel
  · rw [if_pos hd]; simp
  · rw [if_neg hd]
    by_cases hm : iter.op = OperationMerge
    · rw [if_pos hm]
      cases ho : iter.options with
      | none => simp
      | some o =>
        cases hmo : o.MergeOperator with
        | none => simp [hmo]
        | some m =>
          by_cases hok : (m.FullMerge iter.k none [iter.v]).2 = true
          · simp [hmo, hok]
          · simp [hmo, hok]
    · rw [if_neg hm]; simp

theorem Current_congr (a b : iteratorSingle) (ha : ¬ a.pos ≥ a.posEnd)
    (hb : ¬ b.pos ≥ b.posEnd) (hop : a.op = b.op) (hk : a.k = b.k) (hv : a.v = b.v)
    (ho : a.options = b.options) : a.Current = b.Current := by
  unfold iteratorSingle.Current
  rw [if_neg ha, if_neg hb, hop, hk, hv, ho]

/-- C19: `Current` is the tombstone/merge interpretation of `CurrentEx`: for
every state, `Current` returns `ErrIteratorDone` if and only if `CurrentEx`
returns `ErrIteratorDone`; and two states with equal `CurrentEx` results and
equal options give equal `Current` results, so `Current` depends only on what
`CurrentEx` returns and on the configured reducer. -/
theorem C19_current_refines_currentEx (iter iter2 : iteratorSingle)
    (hex : iter.CurrentEx = iter2.CurrentEx) (hopt : iter.options = iter2.options) :
    (iter.Current.2.2 = some error.ErrIteratorDone ↔
      iter.CurrentEx.2.2.2 = some error.ErrIteratorDone) ∧
    iter.Current = iter2.Current := by
  have hiff : ∀ a : iteratorSingle,
      (a.Current.2.2 = some error.ErrIteratorDone ↔
        a.CurrentEx.2.2.2 = some error.ErrIteratorDone) ∧
      (a.CurrentEx.2.2.2 = some error.ErrIteratorDone ↔ a.pos ≥ a.posEnd) := by
    intro a
    by_cases h : a.pos ≥ a.posEnd
    · have h1 : a.Current = (none, none, some error.ErrIteratorDone) := by
        unfold iteratorSingle.Current; rw [if_pos h]
      have h2 : a.CurrentEx = ({ Operation := 0 }, none, none, some error.ErrIteratorDone) := by
        unfold iteratorSingle.CurrentEx; rw [if_pos h]
      rw [h1, h2]
      exact ⟨⟨fun _ => rfl, fun _ => rfl⟩, ⟨fun _ => h, fun _ => rfl⟩⟩
    · have h2 : a.CurrentEx = ({ Operation := a.op }, a.k, a.v, none) := by
        unfold iteratorSingle.CurrentEx; rw [if_neg h]
      have h1 := Current_err_of_active a h
      rw [h2]
      exact ⟨⟨fun hc => absurd hc h1, fun hc => nomatch hc⟩,
        ⟨(fun hc => nomatch hc), fun hc => absurd hc h⟩⟩
  refine ⟨(hiff iter).1, ?_⟩
  by_cases h1 : iter.pos ≥ iter.posEnd
  · have h2 : iter2.pos ≥ iter2.posEnd := by
      have := ((hiff iter).2).mpr h1
      rw [hex] at this
      exact ((hiff iter2).2).mp this
    unfold iteratorSingle.Current
    rw [if_pos h1, if_pos h2]
  · have h2 : ¬ iter2.pos ≥ iter2.posEnd := by
      intro h2
      have := ((hiff iter2).2).mpr h2
      rw [← hex] at this
      exact h1 (((hiff iter).2).mp this)
    have e1 : iter.CurrentEx = ({ Operation := iter.op }, iter.k, iter.v, none) := by
      unfold iteratorSingle.CurrentEx; rw [if_neg h1]
    have e2 : iter2.CurrentEx = ({ Operation := iter2.op }, iter2.k, iter2.v, none) := by
      unfold iteratorSingle.CurrentEx; rw [if_neg h2]
    rw [e1, e2] at hex
    have hop : iter.op = iter2.op := congrArg (fun r => r.1.Operation) hex
    have hk : iter.k = iter2.k := congrArg (fun r => r.2.1) hex
    have hv : iter.v = iter2.v := congrArg (fun r => r.2.2.1) hex
    exact Current_congr iter iter2 h1 h2 hop hk hv hopt

theorem C19_current_refines_currentEx_witness :
    ((exampleIter 1 3).Current.2.2 = some error.ErrIteratorDone ↔
      (exampleIter 1 3).CurrentEx.2.2.2 = some error.ErrIteratorDone) ∧
    (exampleIter 1 3).Current = (exampleIter 1 2).Current :=
  C19_current_refines_currentEx (exampleIter 1 3) (exampleIter 1 2) (by decide) rfl

/-! ## C20: positions passed to the segment accessor -/

theorem NextTraced_fst (iter : iteratorSingle) : iter.NextTraced.1 = iter.Next := by
  unfold iteratorSingle.NextTraced iteratorSingle.Next
  by_cases h : wrapInt (iter.pos + 1) ≥ iter.posEnd
  · simp only [h, if_true]
  · simp only [h, if_false]

theorem nextQueries_inBounds (n : Nat) :
    ∀ iter : iteratorSingle, 0 ≤ iter.pos → iter.pos + (n : Int) ≤ maxInt →
      ∀ p ∈ nextQueries n iter, iter.pos < p ∧ p < iter.posEnd := by
  induction n with
  | zero =>
    intro iter _ _ p hp
    simp [nextQueries] at hp
  | succ n ih =>
    intro iter h0 hn p hp
    have hw : wrapInt (iter.pos + 1) = iter.pos + 1 :=
      wrapInt_of_inRange _ (by unfold minInt; omega) (by push_cast at hn; omega)
    by_cases h : iter.pos + 1 ≥ iter.posEnd
    · have hT : iter.NextTraced
          = (({ iter with pos := iter.pos + 1 }, some error.ErrIteratorDone), []) := by
        simp only [iteratorSingle.NextTraced, hw, h, if_true]
      simp only [nextQueries, hT, List.nil_append] at hp
      have := ih { iter with pos := iter.pos + 1 }
        (by show 0 ≤ iter.pos + 1; omega)
        (by show iter.pos + 1 + (n : Int) ≤ maxInt; push_cast at hn; omega) p hp
      exact ⟨by have h1 : iter.pos + 1 < p := this.1; omega, this.2⟩
    · have hT : iter.NextTraced
          = (({ iter with
                pos := iter.pos + 1
                op := (iter.s.GetOperationKeyVal (iter.pos + 1)).1
                k := (iter.s.GetOperationKeyVal (iter.pos + 1)).2.1
                v := (iter.s.GetOperationKeyVal (iter.pos + 1)).2.2 }, none),
             [iter.pos + 1]) := by
        simp only [iteratorSingle.NextTraced, hw, h, if_false]
      simp only [nextQueries, hT, List.singleton_append, List.mem_cons] at hp
      rcases hp with hp | hp
      · rw [hp]
        exact ⟨by omega, by omega⟩
      · have := ih
          { iter with
              pos := iter.pos + 1
              op := (iter.s.GetOperationKeyVal (iter.pos + 1)).1
              k := (iter.s.GetOperationKeyVal (iter.pos + 1)).2.1
              v := (iter.s.GetOperationKeyVal (iter.pos + 1)).2.2 }
          (by show 0 ≤ iter.pos + 1; omega)
          (by show iter.pos + 1 + (n : Int) ≤ maxInt; push_cast at hn; omega) p hp
        exact ⟨by have h1 : iter.pos + 1 < p := this.1; omega, this.2⟩

/-- C20, as stated, fails: the cursor with `pos` the largest `int` and
`posEnd = 3` over the three-entry segment has `0 ≤ pos` and
`posEnd ≤` segment length, yet a single `Next` call passes the smallest `int`,
a negative position, to `GetOperationKeyVal`. -/
theorem C20_counterexample :
    (0 : Int) ≤ (exampleIter maxInt 3).pos ∧
    (exampleIter maxInt 3).posEnd ≤ (exampleIter maxInt 3).s.Len ∧
    nextQueries 1 (exampleIter maxInt 3) = [minInt] ∧
    minInt < 0 := by
  decide

/-- C20, amended: for every cursor with `0 ≤ pos` and `posEnd ≤` segment
length, every position that a sequence of `n` `Next` calls passes to
`s.GetOperationKeyVal`, as long as those calls do not take `pos` past the
largest `int` (`pos + n ≤ maxInt`), satisfies
`0 ≤ position < posEnd ≤` segment length; `Current`, `CurrentEx` and `Close`
never query the segment: replacing the segment changes none of their
results. -/
theorem C20_in_bounds_access (iter : iteratorSingle) (n : Nat)
    (h0 : 0 ≤ iter.pos) (heN : iter.posEnd ≤ iter.s.Len)
    (hn : iter.pos + (n : Int) ≤ maxInt) :
    iter.NextTraced.1 = iter.Next ∧
    (∀ p ∈ nextQueries n iter, 0 ≤ p ∧ p < iter.posEnd ∧ p < iter.s.Len) ∧
    ∀ (seg : segment) (w : World),
      ({ iter with s := seg }).Current = iter.Current ∧
      ({ iter with s := seg }).CurrentEx = iter.CurrentEx ∧
      (({ iter with s := seg }).Close w).2 = (iter.Close w).2 := by
  refine ⟨NextTraced_fst iter, fun p hp => ?_, fun seg w => ⟨rfl, rfl, ?_⟩⟩
  · obtain ⟨h1, h2⟩ := nextQueries_inBounds n iter h0 hn p hp
    exact ⟨by omega, h2, by omega⟩
  · unfold iteratorSingle.Close
    cases iter.closer <;> rfl

theorem C20_in_bounds_access_witness :
    nextQueries 5 (exampleIter 0 3) = [1, 2] ∧
    (exampleIter 0 3).NextTraced.1 = (exampleIter 0 3).Next ∧
    (∀ p ∈ nextQueries 5 (exampleIter 0 3),
      0 ≤ p ∧ p < (exampleIter 0 3).posEnd ∧ p < (exampleIter 0 3).s.Len) ∧
    ∀ (seg : segment) (w : World),
      ({ exampleIter 0 3 with s := seg }).Current = (exampleIter 0 3).Current ∧
      ({ exampleIter 0 3 with s := seg }).CurrentEx = (exampleIter 0 3).CurrentEx ∧
      (({ exampleIter 0 3 with s := seg }).Close w).2 = ((exampleIter 0 3).Close w).2 :=
  ⟨by decide, C20_in_bounds_access (exampleIter 0 3) 5 (by decide) (by decide) (by decide)⟩

end Moss
